import Mathlib

/-!
Verification development for the EnsoAI IDE-integration bridge and its
streaming event decoder.

The definitions below are a shallow embedding of the TypeScript sources:

* `src/renderer/lib/stream-json-parser.ts` — the line framer / event decoder
  (`StreamJsonParser.parse`, `extractTextDelta`, `extractModel`, …);
* `src/main/services/claude/ClaudeIdeBridge.ts` — the lock-file discovery
  publisher (`writeLockFile`, `deleteLockFile`), the JSON-RPC session handler
  (`createJsonRpcHandler`) and the WebSocket bridge server
  (`startClaudeIdeBridge`);
* `src/renderer/components/terminal/ShellTerminal.tsx` — the review-session
  exit handler inside `useCodeReview`;
* the MCP tool table (`MCP_TOOLS`, an empty list by design).

Modelling conventions:

* JavaScript strings are modelled as `List Char` when they are scanned
  character by character (decoder input) and as `String` elsewhere.
* JSON values are the inductive `Json` below.  Numbers are kept as an exact
  decimal `mantissa * 10 ^ exp10` pair instead of IEEE doubles; no claim
  checked here depends on floating-point rounding, and both sides of every
  equation use the same representation.
* Fallible operations return `Option`.
* The single-threaded event loop of the bridge is modelled as a step function
  over an explicit state, driven by a list of events.
-/

/-- A JSON value, as produced by `JSON.parse`.  Object fields keep the
insertion order of the source text; duplicate keys are collapsed by
`setProp` exactly as JavaScript property assignment does. -/
inductive Json where
  | null : Json
  | bool (b : Bool) : Json
  | num (mantissa : Int) (exp10 : Int) : Json
  | str (s : String) : Json
  | arr (elems : List Json) : Json
  | obj (fields : List (String × Json)) : Json

/-- First-match association lookup; JavaScript property access on the object
maps produced by `jsonParse` (whose keys are unique by construction). -/
def lookupProp : List (String × Json) → String → Option Json
  | [], _ => none
  | (k', v) :: rest, k => if k' = k then some v else lookupProp rest k

/-- JavaScript property read `value[k]`: defined on objects, `undefined`
(`none`) on every other JSON value. -/
def getProp : Json → String → Option Json
  | .obj fs, k => lookupProp fs k
  | _, _ => none

/-- JavaScript property assignment `o[k] = v`: overwrites in place when the
key exists (keeping its position), appends otherwise. -/
def setProp : List (String × Json) → String → Json → List (String × Json)
  | [], k, v => [(k, v)]
  | (k', v') :: rest, k, v =>
    if k' = k then (k', v) :: rest else (k', v') :: setProp rest k v

/-- JavaScript truthiness of a JSON value (`false`, `0`, `""` and `null` are
falsy; every object and array is truthy). -/
def truthy : Json → Bool
  | .null => false
  | .bool b => b
  | .num m _ => m ≠ 0
  | .str s => s ≠ ""
  | .arr _ => true
  | .obj _ => true

/-- The strict comparison `x === "s"` for an optional JSON value:
true exactly when the value is present and is the string `s`. -/
def strEq (j : Option Json) (s : String) : Bool :=
  match j with
  | some (.str t) => t = s
  | _ => false

/-- `Object.keys` of a JSON value: field names for objects (insertion order),
index strings for arrays and strings, empty otherwise. -/
def jsObjectKeys : Json → List String
  | .obj fs => fs.map Prod.fst
  | .arr xs => (List.range xs.length).map (fun i => toString i)
  | .str s => (List.range s.length).map (fun i => toString i)
  | _ => []

/-! ## JSON text parser (the semantics of `JSON.parse`) -/

/-- JSON insignificant whitespace. -/
def isJsonWS (c : Char) : Bool :=
  c = ' ' ∨ c = '\t' ∨ c = '\n' ∨ c = '\r'

def skipWS (l : List Char) : List Char := l.dropWhile isJsonWS

def isDigitCh (c : Char) : Bool := '0' ≤ c ∧ c ≤ '9'

def hexVal (c : Char) : Option Nat :=
  if '0' ≤ c ∧ c ≤ '9' then some (c.toNat - 48)
  else if 'a' ≤ c ∧ c ≤ 'f' then some (c.toNat - 87)
  else if 'A' ≤ c ∧ c ≤ 'F' then some (c.toNat - 55)
  else none

def digitsToNat (ds : List Char) : Nat :=
  ds.foldl (fun a c => a * 10 + (c.toNat - 48)) 0

/-- Body of a JSON string literal, after the opening quote.  Handles the JSON
escapes; `\uXXXX` is turned into the scalar `Char.ofNat` of its value
(surrogate halves, which Lean's `Char` cannot carry, degrade to `'\0'`; no
claim depends on them).  Unescaped control characters are rejected, as in
`JSON.parse`. -/
def parseStringBody : Nat → List Char → List Char → Option (String × List Char)
  | 0, _, _ => none
  | _, _, [] => none
  | fuel + 1, acc, c :: rest =>
    if c = '"' then some (String.mk acc.reverse, rest)
    else if c = '\\' then
      match rest with
      | [] => none
      | e :: rest2 =>
        if e = '"' then parseStringBody fuel ('"' :: acc) rest2
        else if e = '\\' then parseStringBody fuel ('\\' :: acc) rest2
        else if e = '/' then parseStringBody fuel ('/' :: acc) rest2
        else if e = 'b' then parseStringBody fuel ('\x08' :: acc) rest2
        else if e = 'f' then parseStringBody fuel ('\x0c' :: acc) rest2
        else if e = 'n' then parseStringBody fuel ('\n' :: acc) rest2
        else if e = 'r' then parseStringBody fuel ('\r' :: acc) rest2
        else if e = 't' then parseStringBody fuel ('\t' :: acc) rest2
        else if e = 'u' then
          match rest2 with
          | h1 :: h2 :: h3 :: h4 :: rest3 =>
            match hexVal h1, hexVal h2, hexVal h3, hexVal h4 with
            | some a, some b, some c3, some d =>
              parseStringBody fuel
                (Char.ofNat (a * 4096 + b * 256 + c3 * 16 + d) :: acc) rest3
            | _, _, _, _ => none
          | _ => none
        else none
    else if c.toNat < 32 then none
    else parseStringBody fuel (c :: acc) rest

/-- A JSON number literal: optional minus sign, integer part without leading
zeros, optional fraction, optional exponent.  The value is returned as the
exact decimal `Json.num mantissa exp10`. -/
def parseNumber (l : List Char) : Option (Json × List Char) :=
  let (neg, l1) := match l with
    | '-' :: r => (true, r)
    | _ => (false, l)
  let intDigits := l1.takeWhile isDigitCh
  if intDigits = [] then none
  else if 1 < intDigits.length ∧ intDigits.head? = some '0' then none
  else
    let l2 := l1.drop intDigits.length
    let (fracOk, fracDigits, l3) := match l2 with
      | '.' :: r =>
        let fd := r.takeWhile isDigitCh
        (!fd.isEmpty, fd, r.drop fd.length)
      | _ => (true, [], l2)
    if fracOk = false then none
    else
      let (expOk, expNeg, expDigits, l4) := match l3 with
        | 'e' :: '+' :: r => (!(r.takeWhile isDigitCh).isEmpty, false, r.takeWhile isDigitCh, r.drop (r.takeWhile isDigitCh).length)
        | 'e' :: '-' :: r => (!(r.takeWhile isDigitCh).isEmpty, true, r.takeWhile isDigitCh, r.drop (r.takeWhile isDigitCh).length)
        | 'e' :: r => (!(r.takeWhile isDigitCh).isEmpty, false, r.takeWhile isDigitCh, r.drop (r.takeWhile isDigitCh).length)
        | 'E' :: '+' :: r => (!(r.takeWhile isDigitCh).isEmpty, false, r.takeWhile isDigitCh, r.drop (r.takeWhile isDigitCh).length)
        | 'E' :: '-' :: r => (!(r.takeWhile isDigitCh).isEmpty, true, r.takeWhile isDigitCh, r.drop (r.takeWhile isDigitCh).length)
        | 'E' :: r => (!(r.takeWhile isDigitCh).isEmpty, false, r.takeWhile isDigitCh, r.drop (r.takeWhile isDigitCh).length)
        | _ => (true, false, [], l3)
      if expOk = false then none
      else
        let mantissa : Int :=
          (if neg then -1 else 1) * (digitsToNat (intDigits ++ fracDigits) : Int)
        let expVal : Int :=
          (if expNeg then -1 else 1) * (digitsToNat expDigits : Int)
        some (.num mantissa (expVal - fracDigits.length), l4)

mutual

/-- Recursive-descent JSON value parser.  The fuel only bounds the nesting
depth; every level consumes at least one character, so `length + 1` fuel is
never exhausted on an accepted input. -/
def parseValue : Nat → List Char → Option (Json × List Char)
  | 0, _ => none
  | fuel + 1, l =>
    match skipWS l with
    | 'n' :: 'u' :: 'l' :: 'l' :: rest => some (.null, rest)
    | 't' :: 'r' :: 'u' :: 'e' :: rest => some (.bool true, rest)
    | 'f' :: 'a' :: 'l' :: 's' :: 'e' :: rest => some (.bool false, rest)
    | '"' :: rest =>
      (parseStringBody (rest.length + 1) [] rest).map (fun p => (.str p.1, p.2))
    | '\x7b' :: rest =>
      (match skipWS rest with
       | '\x7d' :: r2 => some (.obj [], r2)
       | _ => parseMembers fuel [] rest)
    | '[' :: rest =>
      (match skipWS rest with
       | ']' :: r2 => some (.arr [], r2)
       | _ => parseElems fuel [] rest)
    | other => parseNumber other
termination_by fuel _ => fuel

/-- Members of a JSON object after the opening brace. -/
def parseMembers : Nat → List (String × Json) → List Char → Option (Json × List Char)
  | 0, _, _ => none
  | fuel + 1, acc, l =>
    match skipWS l with
    | '"' :: rest =>
      (match parseStringBody (rest.length + 1) [] rest with
       | some (k, r1) =>
         (match skipWS r1 with
          | ':' :: r2 =>
            (match parseValue fuel r2 with
             | some (v, r3) =>
               let acc2 := setProp acc k v
               (match skipWS r3 with
                | ',' :: r4 => parseMembers fuel acc2 r4
                | '\x7d' :: r4 => some (.obj acc2, r4)
                | _ => none)
             | none => none)
          | _ => none)
       | none => none)
    | _ => none
termination_by fuel _ _ => fuel

/-- Elements of a JSON array after the opening bracket. -/
def parseElems : Nat → List Json → List Char → Option (Json × List Char)
  | 0, _, _ => none
  | fuel + 1, acc, l =>
    match parseValue fuel l with
    | some (v, r1) =>
      (match skipWS r1 with
       | ',' :: r2 => parseElems fuel (acc ++ [v]) r2
       | ']' :: r2 => some (.arr (acc ++ [v]), r2)
       | _ => none)
    | none => none
termination_by fuel _ _ => fuel

end

/-- `JSON.parse`: a complete JSON text, allowing surrounding whitespace and
nothing else. -/
def jsonParse (l : List Char) : Option Json :=
  match parseValue (l.length + 1) l with
  | some (v, rest) => if skipWS rest = [] then some v else none
  | none => none

/-! ## Line framer (`StreamJsonParser` from stream-json-parser.ts)

`parse` appends the chunk to the buffer, splits on the regex `/\r?\n/`,
keeps the last (possibly unterminated) segment as the new buffer, and for
each completed line strips ANSI sequences, trims, and attempts a strict
JSON parse of lines starting with a brace, silently discarding the rest.

The JavaScript split on `/\r?\n/` is modelled as a split on `'\n'`
followed by removing one trailing `'\r'` from every segment that was
terminated by a `'\n'`; the final segment is kept verbatim.  The two are
equivalent because every match of the regex is a `'\n'` extended to the
left by at most one `'\r'`. -/

/-- Split on `'\n'`; always returns at least one segment, and the final
segment is exactly the tail after the last `'\n'`. -/
def splitOnLF : List Char → List (List Char)
  | [] => [[]]
  | c :: rest =>
    if c = '\n' then [] :: splitOnLF rest
    else
      match splitOnLF rest with
      | [] => [[c]]
      | l :: ls => (c :: l) :: ls

/-- Remove one trailing carriage return, the `\r?` of the separator. -/
def dropTrailingCR (l : List Char) : List Char :=
  if l.getLast? = some '\r' then l.dropLast else l

/-! ### The ANSI escape regex

The source strips matches of
`[\u001b\u009b][[()#;?]*(?:[0-9]{1,4}(?:;[0-9]{0,4})*)?[0-9A-ORZcf-nqry=><]`
(global flag).  The matcher below follows the backtracking order of the
regex engine: the introducer class `[[()#;?]*` can be taken maximally
(no character of that class is a digit or a final byte, so giving back a
character always fails immediately); the digit groups are tried greedily,
longest first, with the optional group preferred taken. -/

def isAnsiIntroducer (c : Char) : Bool :=
  c = '[' ∨ c = '(' ∨ c = ')' ∨ c = '#' ∨ c = ';' ∨ c = '?'

/-- Final byte class `[0-9A-ORZcf-nqry=><]`. -/
def isAnsiFinal (c : Char) : Bool :=
  isDigitCh c ∨ ('A' ≤ c ∧ c ≤ 'O') ∨ c = 'R' ∨ c = 'Z' ∨ c = 'c' ∨
    ('f' ≤ c ∧ c ≤ 'n') ∨ c = 'q' ∨ c = 'r' ∨ c = 'y' ∨
    c = '=' ∨ c = '>' ∨ c = '<'

/-- Length of the maximal run of characters satisfying `p`. -/
def runLength (p : Char → Bool) : List Char → Nat
  | [] => 0
  | c :: rest => if p c then runLength p rest + 1 else 0

/-- Match a single final byte. -/
def tryFinal : List Char → Option Nat
  | [] => none
  | c :: _ => if isAnsiFinal c then some 1 else none

mutual

/-- Match `(?:;[0-9]{0,4})*` followed by the final byte, in backtracking
order: prefer another `;`-group, inside it prefer more digits. -/
def semiFinal : Nat → List Char → Option Nat
  | 0, _ => none
  | fuel + 1, l =>
    match
      (match l with
       | ';' :: rest => semiDigits fuel rest (min 4 (runLength isDigitCh rest))
       | _ => none)
    with
    | some n => some n
    | none => tryFinal l
termination_by fuel _ => (fuel, 0)

/-- After a `;`, try `j` digits (then the rest of the star and the final
byte), counting `j` down on failure. -/
def semiDigits : Nat → List Char → Nat → Option Nat
  | fuel, rest, j =>
    match semiFinal fuel (rest.drop j) with
    | some n => some (1 + j + n)
    | none =>
      match j with
      | 0 => none
      | j' + 1 => semiDigits fuel rest j'
termination_by fuel _ j => (fuel, j + 1)

end

/-- Try the leading `[0-9]{1,4}` with `k` digits, counting down;
`k = 0` means the optional digit part cannot be taken. -/
def leadDigits (l : List Char) : Nat → Option Nat
  | 0 => none
  | k + 1 =>
    match semiFinal (l.length + 1) (l.drop (k + 1)) with
    | some n => some ((k + 1) + n)
    | none => leadDigits l k

/-- Everything after the introducer run: the optional digit part (preferred
taken, greedy) or directly a final byte. -/
def ansiBody (l : List Char) : Option Nat :=
  match leadDigits l (min 4 (runLength isDigitCh l)) with
  | some n => some n
  | none => tryFinal l

/-- Length of the regex match starting at the head of `l`, if any. -/
def matchAnsiAt : List Char → Option Nat
  | [] => none
  | c :: rest =>
    if c = '\x1b' ∨ c = '\x9b' then
      let s := runLength isAnsiIntroducer rest
      match ansiBody (rest.drop s) with
      | some n => some (1 + s + n)
      | none => none
    else none

/-- `line.replace(ansiRegex, '')`: delete every match, scanning left to
right and resuming after each match (every match spans at least two
characters, so the recursion consumes the list). -/
def stripAnsi : List Char → List Char
  | [] => []
  | c :: rest =>
    match matchAnsiAt (c :: rest) with
    | some n => stripAnsi (rest.drop (n - 1))
    | none => c :: stripAnsi rest
termination_by l => l.length
decreasing_by
  · simp only [List.length_cons, List.length_drop]
    omega
  · simp

/-- JavaScript `String.prototype.trim` whitespace (the characters relevant
to terminal output; the full set also contains rarer Unicode spaces). -/
def isJsTrimWS (c : Char) : Bool :=
  c = ' ' ∨ c = '\t' ∨ c = '\n' ∨ c = '\r' ∨ c = '\x0b' ∨ c = '\x0c' ∨
    c = '\xa0' ∨ c = '﻿'

/-- `line.trim()`. -/
def jsTrim (l : List Char) : List Char :=
  ((l.dropWhile isJsTrimWS).reverse.dropWhile isJsTrimWS).reverse

/-- The per-line body of `StreamJsonParser.parse`: strip ANSI codes, trim,
skip empty lines, and strictly JSON-parse lines starting with a brace;
everything else is silently discarded. -/
def processLine (line : List Char) : Option Json :=
  let cleanLine := jsTrim (stripAnsi line)
  match cleanLine with
  | [] => none
  | c :: _ => if c = '\x7b' then jsonParse cleanLine else none

/-- The decoder instance state: the single pending-partial-line buffer. -/
structure StreamJsonParser where
  buffer : List Char

/-- `StreamJsonParser.parse(chunk)`: append to the buffer, split on
`/\r?\n/`, pop the last segment back into the buffer, and decode each
completed line.  Returns the new state and the ordered decoded records. -/
def StreamJsonParser.parse (p : StreamJsonParser) (chunk : List Char) :
    StreamJsonParser × List Json :=
  let buf := p.buffer ++ chunk
  let segs := splitOnLF buf
  (⟨segs.getLastD []⟩,
   ((segs.dropLast.map dropTrailingCR).filterMap processLine))

/-- `reset()`: clear the buffer. -/
def StreamJsonParser.reset (_ : StreamJsonParser) : StreamJsonParser := ⟨[]⟩

/-! ## Event classifier (static extractors of `StreamJsonParser`) -/

/-- `extractTextDelta`: only a `stream_event` record whose nested event kind
is `content_block_delta` yields its `delta.text`; the `|| null` of the
source turns a falsy text (in particular the empty string) into `null`
(`none`).  Whole-message (`assistant`) and `result` records never yield. -/
def StreamJsonParser.extractTextDelta (event : Json) : Option Json :=
  if strEq (getProp event "type") "stream_event" &&
      strEq ((getProp event "event").bind (fun e => getProp e "type"))
        "content_block_delta" then
    match (getProp event "event").bind (fun e => getProp e "delta")
        |>.bind (fun d => getProp d "text") with
    | some v => if truthy v then some v else none
    | none => none
  else none

/-- `isMessageEndEvent`. -/
def StreamJsonParser.isMessageEndEvent (event : Json) : Bool :=
  strEq (getProp event "type") "stream_event" &&
    strEq ((getProp event "event").bind (fun e => getProp e "type"))
      "message_stop"

/-- `isInitEvent`. -/
def StreamJsonParser.isInitEvent (event : Json) : Bool :=
  strEq (getProp event "type") "system" &&
    strEq (getProp event "subtype") "init"

/-- `isResultEvent`. -/
def StreamJsonParser.isResultEvent (event : Json) : Bool :=
  strEq (getProp event "type") "result"

/-- `isErrorEvent`. -/
def StreamJsonParser.isErrorEvent (event : Json) : Bool :=
  strEq (getProp event "type") "system" &&
    strEq (getProp event "subtype") "error"

/-- `extractCost`: the numeric `total_cost_usd` of a result record. -/
def StreamJsonParser.extractCost (event : Json) : Option Json :=
  if strEq (getProp event "type") "result" then
    match getProp event "total_cost_usd" with
    | some (.num m e) => some (.num m e)
    | _ => none
  else none

/-- `extractModel`: on a result record, prefer the `model` string field,
else fall back to the first `Object.keys` entry of a truthy `modelUsage`. -/
def StreamJsonParser.extractModel (event : Json) : Option String :=
  if strEq (getProp event "type") "result" then
    match getProp event "model" with
    | some (.str m) => some m
    | _ =>
      match getProp event "modelUsage" with
      | some mu =>
        if truthy mu then
          match jsObjectKeys mu with
          | m :: _ => some m
          | [] => none
        else none
      | none => none
  else none

/-! ## Review session status (`useCodeReview` in ShellTerminal.tsx) -/

/-- The review lifecycle states of `ReviewStatus`. -/
inductive ReviewStatus where
  | idle
  | initializing
  | streaming
  | complete
  | error
deriving DecidableEq

/-- The status update performed by the `onExit` listener registered in
`startReview` (ShellTerminal.tsx lines 813–824):

if the exit code is nonzero and the status is not `complete`, set `error`;
otherwise, if the status is not `error`, set `complete`; otherwise leave
the status alone. -/
def exitStatusUpdate (status : ReviewStatus) (exitCode : Int) : ReviewStatus :=
  if exitCode ≠ 0 ∧ status ≠ .complete then .error
  else if status ≠ .error then .complete
  else status

/-! ## JSON-RPC session handler (`createJsonRpcHandler` in ClaudeIdeBridge.ts) -/

/-- The MCP tool table from mcpTools.ts: no tools are exposed. -/
def MCP_TOOLS : List Json := []

/-- The handler closure state: `let initialized = false`.  One such state is
created per call of `createJsonRpcHandler`, i.e. one per bridge instance. -/
structure RpcState where
  initialized : Bool

/-- An outbound JSON-RPC frame: `reply` sends `{jsonrpc, id, result}` and
`error` sends `{jsonrpc, id, error: {code, message}}`. -/
inductive JsonRpcOut where
  | reply (id : Json) (result : Json)
  | error (id : Json) (code : Int) (message : String)

/-- The string interpolation `${x}` for the values that can appear in the
error messages (the `toString` of numbers and arrays is simplified; no
claim looks at those messages). -/
def jsTemplate : Option Json → String
  | none => "undefined"
  | some .null => "null"
  | some (.bool true) => "true"
  | some (.bool false) => "false"
  | some (.str s) => s
  | some (.num m e) => toString m ++ (if e = 0 then "" else "e" ++ toString e)
  | some (.arr _) => ""
  | some (.obj _) => "[object Object]"

/-- The `initialize` result blob. -/
def initializeResult (ideName : String) : Json :=
  .obj [("protocolVersion", .str "2024-11-05"),
        ("capabilities", .obj
          [("logging", .obj []),
           ("prompts", .obj [("listChanged", .bool true)]),
           ("resources", .obj [("subscribe", .bool true), ("listChanged", .bool true)]),
           ("tools", .obj [("listChanged", .bool true)])]),
        ("serverInfo", .obj [("name", .str ideName), ("version", .str "0.0.1")])]

/-- The request branch of the handler (a message that carries an `id`).
It never touches `initialized`, exactly as in the source. -/
def dispatchRequest (ideName : String) (st : RpcState) (msg : Json) (idv : Json) :
    JsonRpcOut :=
  let method := getProp msg "method"
  if strEq method "ping" then .reply idv (.obj [])
  else if strEq method "initialize" then .reply idv (initializeResult ideName)
  else if st.initialized = false ∧ strEq method "ping" = false then
    .error idv (-32002) "Server not initialized"
  else if strEq method "tools/list" then .reply idv (.obj [("tools", .arr MCP_TOOLS)])
  else if strEq method "prompts/list" then .reply idv (.obj [("prompts", .arr [])])
  else if strEq method "resources/list" then .reply idv (.obj [("resources", .arr [])])
  else if strEq method "tools/call" then
    .error idv (-32601)
      ("Tool not found: " ++ jsTemplate ((getProp msg "params").bind (fun p => getProp p "name")))
  else .error idv (-32601) ("Method not found: " ++ jsTemplate method)

/-- The `onMessage` closure returned by `createJsonRpcHandler`, applied to
the `safeJsonParse` of the raw frame (`none` models a parse failure).
Falsy parse results and frames whose `jsonrpc` is not `"2.0"` are dropped;
a frame without an `id` is a notification, of which only
`notifications/initialized` has an effect (it flips `initialized`);
a frame with an `id` is dispatched. -/
def jsonRpcOnMessage (ideName : String) (st : RpcState) (parsed : Option Json) :
    RpcState × Option JsonRpcOut :=
  match parsed with
  | none => (st, none)
  | some msg =>
    if truthy msg = false then (st, none)
    else if strEq (getProp msg "jsonrpc") "2.0" = false then (st, none)
    else
      match getProp msg "id" with
      | none =>
        if strEq (getProp msg "method") "notifications/initialized" then
          ({ initialized := true }, none)
        else (st, none)
      | some idv => (st, some (dispatchRequest ideName st msg idv))

/-- True exactly for the parsed frames that flip `initialized` to true. -/
def initTrigger (parsed : Option Json) : Bool :=
  match parsed with
  | none => false
  | some msg =>
    truthy msg && strEq (getProp msg "jsonrpc") "2.0" &&
      (getProp msg "id").isNone &&
      strEq (getProp msg "method") "notifications/initialized"

/-! ## Bridge server (`startClaudeIdeBridge`)

The single-threaded event loop is modelled as a step function.  Client
sockets are identified by numbers; a `connect` event carries the value of
the `x-claude-code-ide-authorization` header, a `message` event carries
the `safeJsonParse` of its payload.  `ws.close()` calls are recorded in
an append-only `closedLog` ( `some 1008` for the policy-violation close,
`none` for the displacement close and for peer-initiated closes), and a
closed socket neither processes nor receives further frames. -/

/-- A frame delivered to a client: a JSON-RPC response from the handler or
a server-to-client notification from `sendNotification`. -/
inductive OutFrame where
  | rpc (out : JsonRpcOut)
  | notice (method : String) (params : Json)

inductive BridgeEvent where
  | connect (c : Nat) (header : String)
  | message (c : Nat) (payload : Option Json)
  | close (c : Nat)
  | uiNotify (method : String) (params : Json)

structure BridgeState where
  ideName : String
  authToken : String
  rpc : RpcState
  current : Option Nat
  handlers : List Nat
  closedLog : List (Nat × Option Nat)
  delivered : List (Nat × OutFrame)

/-- Whether a close has been issued for socket `c`. -/
def BridgeState.isClosed (m : BridgeState) (c : Nat) : Bool :=
  m.closedLog.any (fun e => e.1 = c)

/-- The state of a freshly started bridge: fresh token, one handler with
`initialized = false`, no client. -/
def startBridge (ideName authToken : String) : BridgeState :=
  ⟨ideName, authToken, ⟨false⟩, none, [], [], []⟩

/-- One event-loop step of the bridge server. -/
def step (m : BridgeState) (e : BridgeEvent) : BridgeState :=
  match e with
  | .connect c header =>
    -- wss.on('connection'): check the auth header, else close(1008);
    -- then close any previous client and become the sole active peer.
    if header ≠ m.authToken then
      { m with closedLog := m.closedLog ++ [(c, some 1008)] }
    else
      let m1 :=
        match m.current with
        | some prev =>
          if prev ≠ c then { m with closedLog := m.closedLog ++ [(prev, none)] }
          else m
        | none => m
      { m1 with current := some c, handlers := m1.handlers ++ [c] }
  | .message c payload =>
    -- ws.on('message') is attached only for authorized sockets and a
    -- closed socket no longer delivers events; replies go to the sender.
    if c ∈ m.handlers ∧ m.isClosed c = false then
      let r := jsonRpcOnMessage m.ideName m.rpc payload
      { m with
          rpc := r.1,
          delivered := m.delivered ++
            (match r.2 with
             | some o => [(c, OutFrame.rpc o)]
             | none => []) }
    else m
  | .close c =>
    -- ws.on('close'): null the active peer if it is this socket.
    let m1 := { m with closedLog := m.closedLog ++ [(c, none)] }
    if m.current = some c then { m1 with current := none } else m1
  | .uiNotify method params =>
    -- sendNotification: silently dropped unless a peer is open.
    match m.current with
    | some c =>
      if m.isClosed c = false then
        { m with delivered := m.delivered ++ [(c, OutFrame.notice method params)] }
      else m
    | none => m

/-- Run the bridge event loop over a list of events. -/
def run (m : BridgeState) (events : List BridgeEvent) : BridgeState :=
  events.foldl step m

/-! ## Discovery lock file (`writeLockFile` / `deleteLockFile`) -/

/-- The file system, as a path-indexed store of parsed JSON contents. -/
def Fs : Type := List (String × Json)

def fsRead (fs : Fs) (p : String) : Option Json := lookupProp fs p

def fsWrite (fs : Fs) (p : String) (v : Json) : Fs := setProp fs p v

def fsRemove : Fs → String → Fs
  | [], _ => []
  | (q, v) :: rest, p =>
    if q = p then fsRemove rest p else (q, v) :: fsRemove rest p

/-- The `LockFilePayload` record written to the discovery file. -/
structure LockFilePayload where
  pid : Int
  workspaceFolders : List String
  ideName : String
  transport : String
  runningInWindows : Bool
  authToken : String
deriving DecidableEq

/-- `<ideDir>/<port>.lock`. -/
def lockFilePath (ideDir : String) (port : Nat) : String :=
  ideDir ++ "/" ++ toString port ++ ".lock"

/-- The JSON written by `writeLockFile`. -/
def lockFilePayloadJson (pid : Int) (workspaceFolders : List String)
    (ideName : String) (runningInWindows : Bool) (authToken : String) : Json :=
  .obj [("pid", .num pid 0),
        ("workspaceFolders", .arr (workspaceFolders.map Json.str)),
        ("ideName", .str ideName),
        ("transport", .str "ws"),
        ("runningInWindows", .bool runningInWindows),
        ("authToken", .str authToken)]

/-- `writeLockFile`: fully overwrite `<ideDir>/<port>.lock` with the payload
and return the path.  `pid` and `runningInWindows` stand for `process.pid`
and `process.platform === 'win32'`. -/
def writeLockFile (fs : Fs) (ideDir : String) (pid : Int)
    (runningInWindows : Bool) (port : Nat) (authToken : String)
    (workspaceFolders : List String) (ideName : String) : Fs × String :=
  let lockPath := lockFilePath ideDir port
  (fsWrite fs lockPath
    (lockFilePayloadJson pid workspaceFolders ideName runningInWindows authToken),
   lockPath)

/-- `deleteLockFile`: unlink the lock file if it exists; absence (and any
error) is silently ignored. -/
def deleteLockFile (fs : Fs) (ideDir : String) (port : Nat) : Fs :=
  if (fsRead fs (lockFilePath ideDir port)).isSome then
    fsRemove fs (lockFilePath ideDir port)
  else fs

/-- Decode a list of JSON strings. -/
def decodeStrings : List Json → Option (List String)
  | [] => some []
  | .str s :: rest =>
    match decodeStrings rest with
    | some ss => some (s :: ss)
    | none => none
  | _ => none

/-- Read the lock file fields back from their JSON form. -/
def decodeLockFilePayload (j : Json) : Option LockFilePayload :=
  match getProp j "pid", getProp j "workspaceFolders", getProp j "ideName",
      getProp j "transport", getProp j "runningInWindows",
      getProp j "authToken" with
  | some (.num pid 0), some (.arr ws), some (.str nm), some (.str tr),
      some (.bool win), some (.str tok) =>
    (match decodeStrings ws with
     | some folders => some ⟨pid, folders, nm, tr, win, tok⟩
     | none => none)
  | _, _, _, _, _, _ => none

/-- Read the discovery record back from the file system. -/
def readLockFilePayload (fs : Fs) (path : String) : Option LockFilePayload :=
  match fsRead fs path with
  | some j => decodeLockFilePayload j
  | none => none

/-! ## Canonical protocol frames used by the claims -/

/-- A `tools/list` request with the given id. -/
def toolsListReq (idv : Json) : Json :=
  .obj [("jsonrpc", .str "2.0"), ("id", idv), ("method", .str "tools/list")]

/-- The `notifications/initialized` notification. -/
def initializedNotif : Json :=
  .obj [("jsonrpc", .str "2.0"), ("method", .str "notifications/initialized")]

/-! ## Helper lemmas -/

theorem strEq_eq_true_iff (j : Option Json) (s : String) :
    strEq j s = true ↔ j = some (.str s) := by
  cases j with
  | none => simp [strEq]
  | some v => cases v <;> simp [strEq]

theorem lookupProp_setProp_self (fs : List (String × Json)) (k : String) (v : Json) :
    lookupProp (setProp fs k v) k = some v := by
  induction fs with
  | nil => simp [setProp, lookupProp]
  | cons hd tl ih =>
    obtain ⟨k', v'⟩ := hd
    by_cases h : k' = k <;> simp [setProp, lookupProp, h, ih]

theorem fsRead_fsRemove_self (fs : Fs) (p : String) :
    fsRead (fsRemove fs p) p = none := by
  induction fs with
  | nil => rfl
  | cons hd tl ih =>
    obtain ⟨q, v⟩ := hd
    by_cases h : q = p <;> simp [fsRemove, fsRead, lookupProp, h] <;>
      simpa [fsRead] using ih

theorem decodeStrings_map_str (ss : List String) :
    decodeStrings (ss.map Json.str) = some ss := by
  induction ss with
  | nil => rfl
  | cons s tl ih => simp [decodeStrings, ih]

/-! ## C3 — exit-status handling of the review session -/

/-- C3 counterexample: the claim says an exit with code 0 leaves the status
unchanged, but the exit handler promotes a non-`error` status to
`complete`: from `streaming`, exit code 0 produces `complete`. -/
theorem C3_counterexample :
    exitStatusUpdate ReviewStatus.streaming 0 ≠ ReviewStatus.streaming := by
  decide

/-- C3 (amended): a subprocess exit with code 0 sets the status to
`complete` unless it is already `error`; any exit while the status is
already `error` leaves it `error`; exit code 0 while already `complete`
leaves `complete` (so the only statuses an exit never overrides are
`complete`-on-exit-0 and `error`). -/
theorem C3_exit_status :
    (∀ st : ReviewStatus, st ≠ .error → exitStatusUpdate st 0 = .complete) ∧
    (∀ code : Int, exitStatusUpdate .error code = .error) ∧
    exitStatusUpdate .complete 0 = .complete := by
  refine ⟨?_, ?_, by decide⟩
  · intro st h
    cases st <;> simp_all [exitStatusUpdate]
  · intro code
    by_cases hc : code = 0 <;> simp [exitStatusUpdate, hc]

/-- C3 witness: the amended theorem applied at `streaming` and at a
concrete nonzero exit code. -/
theorem C3_exit_status_witness :
    exitStatusUpdate ReviewStatus.streaming 0 = ReviewStatus.complete ∧
    exitStatusUpdate ReviewStatus.error 7 = ReviewStatus.error :=
  ⟨C3_exit_status.1 ReviewStatus.streaming (by decide),
   C3_exit_status.2.1 7⟩

/-! ## C9 — discovery lock-file round trip and idempotent retraction -/

/-- C9: publishing writes exactly the six fields (with `transport = "ws"`)
and reading the file back decodes them unchanged; after `deleteLockFile`
the file is gone; deleting again (or deleting when absent) is a no-op. -/
theorem C9_lock_file :
    ∀ (fs : Fs) (ideDir : String) (pid : Int) (win : Bool) (port : Nat)
      (tok : String) (folders : List String) (name : String),
      readLockFilePayload
          (writeLockFile fs ideDir pid win port tok folders name).1
          (writeLockFile fs ideDir pid win port tok folders name).2 =
        some ⟨pid, folders, name, "ws", win, tok⟩ ∧
      fsRead (deleteLockFile (writeLockFile fs ideDir pid win port tok folders name).1
          ideDir port) (lockFilePath ideDir port) = none ∧
      (∀ fs2 : Fs,
        deleteLockFile (deleteLockFile fs2 ideDir port) ideDir port =
          deleteLockFile fs2 ideDir port) := by
  intro fs ideDir pid win port tok folders name
  have hread : fsRead (writeLockFile fs ideDir pid win port tok folders name).1
      (lockFilePath ideDir port) =
      some (lockFilePayloadJson pid folders name win tok) :=
    lookupProp_setProp_self fs (lockFilePath ideDir port) _
  refine ⟨?_, ?_, ?_⟩
  · show readLockFilePayload _ (lockFilePath ideDir port) = _
    unfold readLockFilePayload
    rw [hread]
    unfold decodeLockFilePayload lockFilePayloadJson
    simp only [getProp, lookupProp, if_pos, if_neg, String.reduceEq, ite_true,
      ite_false, reduceIte]
    rw [decodeStrings_map_str]
  · unfold deleteLockFile
    rw [hread]
    simp only [Option.isSome_some, ite_true, reduceIte]
    exact fsRead_fsRemove_self _ _
  · intro fs2
    unfold deleteLockFile
    by_cases h : (fsRead fs2 (lockFilePath ideDir port)).isSome
    · rw [if_pos h]
      rw [if_neg (by simp [fsRead_fsRemove_self])]
    · rw [if_neg h, if_neg h]

/-! ## C7 — extractTextDelta fires only on content_block_delta stream events -/

/-- C7: `extractTextDelta` yields a value only when the record type is
`stream_event` and the nested event kind is `content_block_delta`;
`assistant` (whole-message) and `result` records never yield, even when
they carry the same text; and a well-formed delta record yields exactly
its delta text. -/
theorem C7_extractTextDelta :
    ∀ e : Json,
      ((StreamJsonParser.extractTextDelta e).isSome = true →
        getProp e "type" = some (.str "stream_event") ∧
        (getProp e "event").bind (fun v => getProp v "type") =
          some (.str "content_block_delta")) ∧
      (getProp e "type" = some (.str "assistant") →
        StreamJsonParser.extractTextDelta e = none) ∧
      (getProp e "type" = some (.str "result") →
        StreamJsonParser.extractTextDelta e = none) ∧
      StreamJsonParser.extractTextDelta
          (.obj [("type", .str "stream_event"),
                 ("event", .obj
                   [("type", .str "content_block_delta"),
                    ("delta", .obj [("type", .str "text_delta"),
                                    ("text", .str "ab")])])]) =
        some (.str "ab") := by
  intro e
  refine ⟨?_, ?_, ?_, rfl⟩
  · intro hs
    by_cases hc : (strEq (getProp e "type") "stream_event" &&
        strEq ((getProp e "event").bind (fun v => getProp v "type"))
          "content_block_delta") = true
    · rw [Bool.and_eq_true] at hc
      exact ⟨(strEq_eq_true_iff _ _).mp hc.1, (strEq_eq_true_iff _ _).mp hc.2⟩
    · simp only [StreamJsonParser.extractTextDelta, hc] at hs
      simp at hs
  · intro h
    have hA : strEq (getProp e "type") "stream_event" = false := by
      rw [h]; rfl
    simp [StreamJsonParser.extractTextDelta, hA]
  · intro h
    have hA : strEq (getProp e "type") "stream_event" = false := by
      rw [h]; rfl
    simp [StreamJsonParser.extractTextDelta, hA]

/-- C7 witness: a `result` record repeating the same text yields no
text-delta extraction, by the theorem at a concrete record. -/
theorem C7_extractTextDelta_witness :
    StreamJsonParser.extractTextDelta
        (.obj [("type", .str "result"), ("result", .str "ab")]) = none :=
  (C7_extractTextDelta
    (.obj [("type", .str "result"), ("result", .str "ab")])).2.2.1 rfl

/-! ## C10 — an empty-string delta yields nothing -/

/-- C10: for a `stream_event` record with event kind `content_block_delta`
whose `delta.text` is the empty string, `extractTextDelta` returns `none`
(the `|| null` of the source maps the falsy empty string to null). -/
theorem C10_empty_delta :
    ∀ e ev d : Json,
      getProp e "type" = some (.str "stream_event") →
      getProp e "event" = some ev →
      getProp ev "type" = some (.str "content_block_delta") →
      getProp ev "delta" = some d →
      getProp d "text" = some (.str "") →
      StreamJsonParser.extractTextDelta e = none := by
  intro e ev d h1 h2 h3 h4 h5
  simp [StreamJsonParser.extractTextDelta, h1, h2, h3, h4, h5, strEq, truthy]

/-- C10 witness: the theorem at a concrete empty-string delta record. -/
theorem C10_empty_delta_witness :
    StreamJsonParser.extractTextDelta
        (.obj [("type", .str "stream_event"),
               ("event", .obj
                 [("type", .str "content_block_delta"),
                  ("delta", .obj [("text", .str "")])])]) = none :=
  C10_empty_delta _ _ _ rfl rfl rfl rfl rfl

/-! ## C8 — extractModel on result records -/

/-- C8: on a result record `extractModel` returns the `model` field when it
is a string; otherwise, when `modelUsage` is a non-empty mapping, the first
key of the mapping; the concrete record `{"type":"result","modelUsage":
{"claude-x":{}}}` with no model field yields `"claude-x"`; and any
non-result record yields nothing. -/
theorem C8_extractModel :
    (∀ (e : Json) (m : String),
      getProp e "type" = some (.str "result") →
      getProp e "model" = some (.str m) →
      StreamJsonParser.extractModel e = some m) ∧
    (∀ (e : Json) (k : String) (v : Json) (fs2 : List (String × Json)),
      getProp e "type" = some (.str "result") →
      (∀ m : String, getProp e "model" ≠ some (.str m)) →
      getProp e "modelUsage" = some (.obj ((k, v) :: fs2)) →
      StreamJsonParser.extractModel e = some k) ∧
    (∀ e : Json, getProp e "type" ≠ some (.str "result") →
      StreamJsonParser.extractModel e = none) ∧
    StreamJsonParser.extractModel
        (.obj [("type", .str "result"),
               ("modelUsage", .obj [("claude-x", .obj [])])]) =
      some "claude-x" := by
  refine ⟨?_, ?_, ?_, rfl⟩
  · intro e m h1 h2
    simp [StreamJsonParser.extractModel, h1, h2, strEq]
  · intro e k v fs2 h1 h2 h3
    have hA : strEq (getProp e "type") "result" = true := by
      rw [h1]; rfl
    cases hm : getProp e "model" with
    | none =>
      simp [StreamJsonParser.extractModel, hA, hm, h3, truthy, jsObjectKeys]
    | some w =>
      cases w with
      | str s => exact absurd hm (h2 s)
      | null => simp [StreamJsonParser.extractModel, hA, hm, h3, truthy, jsObjectKeys]
      | bool b => simp [StreamJsonParser.extractModel, hA, hm, h3, truthy, jsObjectKeys]
      | num a b => simp [StreamJsonParser.extractModel, hA, hm, h3, truthy, jsObjectKeys]
      | arr xs => simp [StreamJsonParser.extractModel, hA, hm, h3, truthy, jsObjectKeys]
      | obj fs => simp [StreamJsonParser.extractModel, hA, hm, h3, truthy, jsObjectKeys]
  · intro e h
    have hA : strEq (getProp e "type") "result" = false := by
      rw [← Bool.not_eq_true, strEq_eq_true_iff]
      exact h
    simp [StreamJsonParser.extractModel, hA]

/-- C8 witness: the model-field preference and the non-result cases of the
theorem at concrete records. -/
theorem C8_extractModel_witness :
    StreamJsonParser.extractModel
        (.obj [("type", .str "result"), ("model", .str "m1"),
               ("modelUsage", .obj [("m2", .obj [])])]) = some "m1" ∧
    StreamJsonParser.extractModel (.obj [("type", .str "assistant")]) = none :=
  ⟨C8_extractModel.1 _ "m1" rfl rfl,
   C8_extractModel.2.2.1 _ (by simp [getProp, lookupProp])⟩

/-! ## C4 — tools/list gating on notifications/initialized -/

/-- C4: a `tools/list` request while the handler is uninitialized draws the
JSON-RPC error `-32002` "Server not initialized"; the
`notifications/initialized` notification flips the handler to initialized
(and draws no response); once initialized, `tools/list` draws the
configured tool list, and that list (`MCP_TOOLS`) is empty. -/
theorem C4_tools_list :
    ∀ (ideName : String) (idv : Json) (st : RpcState),
      (st.initialized = false →
        jsonRpcOnMessage ideName st (some (toolsListReq idv)) =
          (st, some (.error idv (-32002) "Server not initialized"))) ∧
      (jsonRpcOnMessage ideName st (some initializedNotif) = (⟨true⟩, none)) ∧
      (st.initialized = true →
        jsonRpcOnMessage ideName st (some (toolsListReq idv)) =
          (st, some (.reply idv (.obj [("tools", .arr MCP_TOOLS)])))) ∧
      MCP_TOOLS = [] := by
  intro ideName idv st
  obtain ⟨b⟩ := st
  cases b with
  | false =>
    refine ⟨fun _ => ?_, rfl, fun h => by simp at h, rfl⟩
    rfl
  | true =>
    refine ⟨fun h => by simp at h, rfl, fun _ => ?_, rfl⟩
    rfl

/-- C4 witness: the theorem at the uninitialized and the initialized state
with a concrete request id. -/
theorem C4_tools_list_witness :
    jsonRpcOnMessage "EnsoAI" ⟨false⟩ (some (toolsListReq (.num 1 0))) =
      (⟨false⟩, some (.error (.num 1 0) (-32002) "Server not initialized")) ∧
    jsonRpcOnMessage "EnsoAI" ⟨true⟩ (some (toolsListReq (.num 1 0))) =
      (⟨true⟩, some (.reply (.num 1 0) (.obj [("tools", .arr MCP_TOOLS)]))) :=
  ⟨(C4_tools_list "EnsoAI" (.num 1 0) ⟨false⟩).1 rfl,
   (C4_tools_list "EnsoAI" (.num 1 0) ⟨true⟩).2.2.1 rfl⟩

/-! ## C2 — the initialized flag is shared, not per-connection -/

theorem jsonRpcOnMessage_initialized (ideName : String) (st : RpcState)
    (p : Option Json) :
    ((jsonRpcOnMessage ideName st p).1).initialized =
      (st.initialized || initTrigger p) := by
  cases p with
  | none => simp [jsonRpcOnMessage, initTrigger]
  | some msg =>
    simp only [jsonRpcOnMessage, initTrigger]
    by_cases ht : truthy msg = false
    · simp [ht]
    · rw [Bool.not_eq_false] at ht
      by_cases hj : strEq (getProp msg "jsonrpc") "2.0" = false
      · simp [ht, hj]
      · rw [Bool.not_eq_false] at hj
        cases hid : getProp msg "id" with
        | none =>
          by_cases hm :
              strEq (getProp msg "method") "notifications/initialized" = true
          · simp [ht, hj, hid, hm]
          · rw [Bool.not_eq_true] at hm
            simp [ht, hj, hid, hm]
        | some idv => simp [ht, hj, hid]

/-- C2 counterexample: client 0 connects and initializes, then client 1
displaces it; client 1 never sends `notifications/initialized`, yet its
very first `tools/list` request is answered with the tool list rather
than the `-32002` not-initialized error — the flag survived the
displacement, so it is not per-connection state. -/
theorem C2_counterexample :
    (run (startBridge "EnsoAI" "tok")
        [.connect 0 "tok", .message 0 (some initializedNotif),
         .connect 1 "tok",
         .message 1 (some (toolsListReq (.num 1 0)))]).delivered =
      [(1, OutFrame.rpc (.reply (.num 1 0) (.obj [("tools", .arr [])])))] ∧
    (run (startBridge "EnsoAI" "tok")
        [.connect 0 "tok", .message 0 (some initializedNotif),
         .connect 1 "tok",
         .message 1 (some (toolsListReq (.num 1 0)))]).rpc.initialized =
      true ∧
    ∀ (code : Int) (msg : String),
      (1, OutFrame.rpc (.error (.num 1 0) code msg)) ∉
        (run (startBridge "EnsoAI" "tok")
          [.connect 0 "tok", .message 0 (some initializedNotif),
           .connect 1 "tok",
           .message 1 (some (toolsListReq (.num 1 0)))]).delivered := by
  refine ⟨rfl, rfl, ?_⟩
  intro code msg h
  rw [show (run (startBridge "EnsoAI" "tok")
      [.connect 0 "tok", .message 0 (some initializedNotif),
       .connect 1 "tok",
       .message 1 (some (toolsListReq (.num 1 0)))]).delivered =
      [(1, OutFrame.rpc (.reply (.num 1 0) (.obj [("tools", .arr [])])))]
    from rfl] at h
  simp at h

/-- C2 (amended): the `initialized` flag lives in the single JSON-RPC
handler created once per bridge, so it is bridge-level state shared by
every connection: it is false when the bridge starts, no connection
(or displacement) event changes it, it can only become true through a
`notifications/initialized` frame from some open authorized socket, and
it does become true when such a socket sends that frame — so a second
connection inherits the first one's initialization instead of having to
re-initialize. -/
theorem C2_shared_initialized :
    (∀ n t : String, (startBridge n t).rpc.initialized = false) ∧
    (∀ (m : BridgeState) (c : Nat) (h : String),
      (step m (.connect c h)).rpc = m.rpc) ∧
    (∀ (m : BridgeState) (e : BridgeEvent),
      (step m e).rpc.initialized = true →
      m.rpc.initialized = true ∨
        ∃ (c : Nat) (p : Option Json),
          e = .message c p ∧ initTrigger p = true) ∧
    (∀ (m : BridgeState) (c : Nat),
      c ∈ m.handlers → m.isClosed c = false →
      (step m (.message c (some initializedNotif))).rpc.initialized = true) := by
  refine ⟨fun _ _ => rfl, ?_, ?_, ?_⟩
  · intro m c h
    simp only [step]
    by_cases hh : h ≠ m.authToken
    · rw [if_pos hh]
    · rw [if_neg hh]
      cases m.current with
      | none => rfl
      | some prev =>
        simp only
        by_cases hp : prev ≠ c
        · rw [if_pos hp]
        · rw [if_neg hp]
  · intro m e he
    cases e with
    | connect c h =>
      left
      have h2 : (step m (.connect c h)).rpc = m.rpc := by
        simp only [step]
        by_cases hh : h ≠ m.authToken
        · rw [if_pos hh]
        · rw [if_neg hh]
          cases m.current with
          | none => rfl
          | some prev =>
            simp only
            by_cases hp : prev ≠ c
            · rw [if_pos hp]
            · rw [if_neg hp]
      rw [h2] at he
      exact he
    | message c p =>
      simp only [step] at he
      by_cases hg : c ∈ m.handlers ∧ m.isClosed c = false
      · rw [if_pos hg] at he
        simp only at he
        rw [jsonRpcOnMessage_initialized, Bool.or_eq_true] at he
        cases he with
        | inl h => exact Or.inl h
        | inr h => exact Or.inr ⟨c, p, rfl, h⟩
      · rw [if_neg hg] at he
        exact Or.inl he
    | close c =>
      left
      simp only [step] at he
      by_cases hc : m.current = some c
      · rw [if_pos hc] at he
        exact he
      · rw [if_neg hc] at he
        exact he
    | uiNotify mth prm =>
      left
      simp only [step] at he
      cases hc : m.current with
      | none => rw [hc] at he; exact he
      | some cl =>
        rw [hc] at he
        simp only at he
        by_cases hcl : m.isClosed cl = false
        · rw [if_pos hcl] at he; exact he
        · rw [if_neg hcl] at he; exact he
  · intro m c h1 h2
    simp only [step, if_pos (And.intro h1 h2)]
    rw [jsonRpcOnMessage_initialized]
    have ht : initTrigger (some initializedNotif) = true := rfl
    rw [ht, Bool.or_true]

/-- C2 witness: the amended theorem's positive part at a freshly connected
socket of a concrete bridge. -/
theorem C2_shared_initialized_witness :
    0 ∈ (step (startBridge "EnsoAI" "tok") (.connect 0 "tok")).handlers ∧
    (step (startBridge "EnsoAI" "tok") (.connect 0 "tok")).isClosed 0 = false ∧
    (step (step (startBridge "EnsoAI" "tok") (.connect 0 "tok"))
        (.message 0 (some initializedNotif))).rpc.initialized = true :=
  ⟨by simp [step, startBridge], rfl,
   C2_shared_initialized.2.2.2 _ 0 (by simp [step, startBridge]) rfl⟩

/-! ## Bridge invariant lemmas for C5 and C6 -/

theorem step_authToken (m : BridgeState) (e : BridgeEvent) :
    (step m e).authToken = m.authToken := by
  cases e <;> simp only [step] <;> (repeat' split) <;> rfl

theorem run_authToken (events : List BridgeEvent) (m : BridgeState) :
    (run m events).authToken = m.authToken := by
  induction events generalizing m with
  | nil => rfl
  | cons e es ih =>
    show (run (step m e) es).authToken = _
    rw [ih, step_authToken]

theorem step_closedLog_mono (m : BridgeState) (e : BridgeEvent)
    (x : Nat × Option Nat) (hx : x ∈ m.closedLog) :
    x ∈ (step m e).closedLog := by
  cases e <;> simp only [step] <;> (repeat' split) <;>
    first
      | exact hx
      | exact List.mem_append_left _ hx

theorem run_closedLog_mono (events : List BridgeEvent) (m : BridgeState)
    (x : Nat × Option Nat) (hx : x ∈ m.closedLog) :
    x ∈ (run m events).closedLog := by
  induction events generalizing m with
  | nil => exact hx
  | cons e es ih =>
    exact ih (step m e) (step_closedLog_mono m e x hx)

theorem step_isClosed_mono (m : BridgeState) (e : BridgeEvent) (a : Nat)
    (h : m.isClosed a = true) : (step m e).isClosed a = true := by
  rw [BridgeState.isClosed, List.any_eq_true] at h ⊢
  obtain ⟨x, hx, hxa⟩ := h
  exact ⟨x, step_closedLog_mono m e x hx, hxa⟩

/-- A socket for which a close has been issued receives no further frame:
closedness is permanent, it blocks the message handler (so no reply is
ever addressed to the socket) and it blocks `sendNotification`. -/
theorem closed_no_delivery (events : List BridgeEvent) (m : BridgeState)
    (a : Nat) (hc : m.isClosed a = true)
    (hd : ∀ f, (a, f) ∉ m.delivered) :
    ∀ f, (a, f) ∉ (run m events).delivered := by
  induction events generalizing m with
  | nil => exact hd
  | cons e es ih =>
    refine ih (step m e) (step_isClosed_mono m e a hc) ?_
    intro f hf
    cases e with
    | connect c h =>
      revert hf
      simp only [step]
      (repeat' split) <;> exact fun hf => hd f hf
    | message c p =>
      revert hf
      simp only [step]
      split
      · next hg =>
        intro hf
        rcases List.mem_append.mp hf with h1 | h2
        · exact hd f h1
        · have hca : c ≠ a := by
            intro hca
            rw [hca] at hg
            rw [hg.2] at hc
            exact Bool.false_ne_true hc
          revert h2
          split <;> simp_all
      · exact hd f
    | close c =>
      revert hf
      simp only [step]
      (repeat' split) <;> exact fun hf => hd f hf
    | uiNotify mth prm =>
      revert hf
      simp only [step]
      split
      · next cl hcl =>
        split
        · next hop =>
          intro hf
          rcases List.mem_append.mp hf with h1 | h2
          · exact hd f h1
          · have h3 := List.mem_singleton.mp h2
            have h4 : a = cl := congrArg Prod.fst h3
            rw [← h4] at hop
            rw [hop] at hc
            exact Bool.false_ne_true hc
        · exact hd f
      · exact hd f

/-- A socket all of whose connection attempts carry a wrong header is never
registered, never addressed, and never becomes the active peer. -/
theorem unauthorized_run_inv (events : List BridgeEvent) (m : BridgeState)
    (a : Nat)
    (hbad : ∀ h, BridgeEvent.connect a h ∈ events → h ≠ m.authToken)
    (h1 : a ∉ m.handlers) (h2 : ∀ f, (a, f) ∉ m.delivered)
    (h3 : m.current ≠ some a) :
    a ∉ (run m events).handlers ∧
      (∀ f, (a, f) ∉ (run m events).delivered) ∧
      (run m events).current ≠ some a := by
  induction events generalizing m with
  | nil => exact ⟨h1, h2, h3⟩
  | cons e es ih =>
    have hbad' : ∀ h, BridgeEvent.connect a h ∈ es → h ≠ (step m e).authToken := by
      intro h hmem
      rw [step_authToken]
      exact hbad h (List.mem_cons_of_mem _ hmem)
    refine ih (step m e) hbad' ?_ ?_ ?_
    · -- a is not registered by the step
      cases e with
      | connect c h =>
        by_cases hca : c = a
        · subst hca
          have hne : h ≠ m.authToken := hbad h (List.mem_cons_self _ _)
          simp only [step, if_pos hne]
          exact h1
        · simp only [step]
          split
          · exact h1
          · (repeat' split) <;>
              · intro hmem
                rcases List.mem_append.mp hmem with hl | hr
                · exact h1 hl
                · exact hca (List.mem_singleton.mp hr).symm
      | message c p =>
        simp only [step]
        split <;> exact h1
      | close c =>
        simp only [step]
        split <;> exact h1
      | uiNotify mth prm =>
        simp only [step]
        (repeat' split) <;> exact h1
    · -- nothing is delivered to a by the step
      intro f
      cases e with
      | connect c h =>
        simp only [step]
        (repeat' split) <;> exact h2 f
      | message c p =>
        simp only [step]
        split
        · next hg =>
          intro hmem
          rcases List.mem_append.mp hmem with hl | hr
          · exact h2 f hl
          · have hca : c ≠ a := fun hca => h1 (hca ▸ hg.1)
            revert hr
            split <;> simp_all
        · exact h2 f
      | close c =>
        simp only [step]
        (repeat' split) <;> exact h2 f
      | uiNotify mth prm =>
        simp only [step]
        split
        · next cl hcl =>
          split
          · intro hmem
            rcases List.mem_append.mp hmem with hl | hr
            · exact h2 f hl
            · have h4 : a = cl := congrArg Prod.fst (List.mem_singleton.mp hr)
              exact h3 (h4 ▸ hcl)
          · exact h2 f
        · exact h2 f
    · -- a does not become the active peer
      cases e with
      | connect c h =>
        by_cases hca : c = a
        · subst hca
          have hne : h ≠ m.authToken := hbad h (List.mem_cons_self _ _)
          simp only [step, if_pos hne]
          exact h3
        · simp only [step]
          split
          · exact h3
          · (repeat' split) <;> exact fun hcur => hca (Option.some.injEq .. ▸ hcur :)
      | message c p =>
        simp only [step]
        split <;> exact h3
      | close c =>
        simp only [step]
        (repeat' split) <;> simp_all
      | uiNotify mth prm =>
        simp only [step]
        (repeat' split) <;> exact h3

/-- Every wrong-header connection attempt is answered by `close(1008)`. -/
theorem bad_connect_logs_1008 (events : List BridgeEvent) (m : BridgeState)
    (a : Nat) (h : String)
    (hmem : BridgeEvent.connect a h ∈ events) (hne : h ≠ m.authToken) :
    (a, some 1008) ∈ (run m events).closedLog := by
  induction events generalizing m with
  | nil => cases hmem
  | cons e es ih =>
    rcases List.mem_cons.mp hmem with he | hes
    · subst he
      refine run_closedLog_mono es (step m (.connect a h)) _ ?_
      simp only [step, if_pos hne]
      exact List.mem_append_right _ (List.mem_singleton.mpr rfl)
    · exact ih (step m e) hes (step_authToken m e ▸ hne)

/-! ## C6 — wrong auth header: close 1008, no JSON-RPC exchange -/

/-- C6: on a bridge started with some auth token, a socket whose every
connection attempt carries a header different from the token is closed
with code 1008 for each such attempt, is never registered as a message
handler, never has any frame (response or notification) delivered to it,
and its messages leave the bridge state completely unchanged. -/
theorem C6_unauthorized :
    ∀ (n token : String) (events : List BridgeEvent) (a : Nat),
      (∀ h, BridgeEvent.connect a h ∈ events → h ≠ token) →
      a ∉ (run (startBridge n token) events).handlers ∧
      (∀ f, (a, f) ∉ (run (startBridge n token) events).delivered) ∧
      (∀ h, BridgeEvent.connect a h ∈ events →
        (a, some 1008) ∈ (run (startBridge n token) events).closedLog) ∧
      (∀ p, step (run (startBridge n token) events) (.message a p) =
        run (startBridge n token) events) := by
  intro n token events a hbad
  have hinv := unauthorized_run_inv events (startBridge n token) a hbad
    (by simp [startBridge]) (by simp [startBridge]) (by simp [startBridge])
  refine ⟨hinv.1, hinv.2.1, ?_, ?_⟩
  · intro h hmem
    exact bad_connect_logs_1008 events (startBridge n token) a h hmem (hbad h hmem)
  · intro p
    simp only [step]
    rw [if_neg]
    intro hg
    exact hinv.1 hg.1

/-- C6 witness: a concrete wrong-token connection followed by a ping
attempt; the socket is 1008-closed, receives nothing, and its message is
a no-op. -/
theorem C6_unauthorized_witness :
    0 ∉ (run (startBridge "EnsoAI" "tok")
        [.connect 0 "wrong", .message 0 (some (toolsListReq (.num 1 0)))]).handlers ∧
    (0, some 1008) ∈ (run (startBridge "EnsoAI" "tok")
        [.connect 0 "wrong", .message 0 (some (toolsListReq (.num 1 0)))]).closedLog ∧
    (∀ f, (0, f) ∉ (run (startBridge "EnsoAI" "tok")
        [.connect 0 "wrong", .message 0 (some (toolsListReq (.num 1 0)))]).delivered) := by
  have h := C6_unauthorized "EnsoAI" "tok"
    [.connect 0 "wrong", .message 0 (some (toolsListReq (.num 1 0)))] 0
    (by
      intro hh hmem
      rcases List.mem_cons.mp hmem with he | hes
      · cases he; decide
      · rcases List.mem_cons.mp hes with he2 | hes2
        · cases he2
        · cases hes2)
  exact ⟨h.1, h.2.2.1 "wrong" (List.mem_cons_self _ _), h.2.1⟩

/-! ## C5 — last-connect-wins and notification routing -/

/-- C5: when client `a` is the active peer and client `b` connects with the
correct token, `a`'s socket is closed and `b` becomes the sole active
peer; a UI notification sent afterwards is delivered to `b`, and nothing
is ever delivered to `a` on any continuation in which `a`'s closed socket
does not reconnect. -/
theorem C5_last_connect_wins :
    ∀ (n token : String) (a b : Nat), a ≠ b →
      (run (startBridge n token) [.connect a token, .connect b token]).current =
        some b ∧
      (a, (none : Option Nat)) ∈
        (run (startBridge n token) [.connect a token, .connect b token]).closedLog ∧
      (∀ mth prm,
        (step (run (startBridge n token) [.connect a token, .connect b token])
            (.uiNotify mth prm)).delivered =
          (run (startBridge n token) [.connect a token, .connect b token]).delivered
            ++ [(b, OutFrame.notice mth prm)]) ∧
      (∀ suffix : List BridgeEvent,
        ∀ mth prm,
          (a, OutFrame.notice mth prm) ∉
            (run (run (startBridge n token) [.connect a token, .connect b token])
              suffix).delivered) := by
  intro n token a b hab
  have hm0 : run (startBridge n token) [.connect a token, .connect b token] =
      ⟨n, token, ⟨false⟩, some b, [a, b], [(a, none)], []⟩ := by
    show step (step (startBridge n token) (.connect a token)) (.connect b token) = _
    have h1 : step (startBridge n token) (.connect a token) =
        ⟨n, token, ⟨false⟩, some a, [a], [], []⟩ := by
      simp [step, startBridge]
    rw [h1]
    simp [step, hab]
  rw [hm0]
  refine ⟨rfl, List.mem_singleton.mpr rfl, ?_, ?_⟩
  · intro mth prm
    simp [step, BridgeState.isClosed, hab]
  · intro suffix mth prm
    exact closed_no_delivery suffix _ a
      (by simp [BridgeState.isClosed]) (by simp) (OutFrame.notice mth prm)

/-- C5 witness: the theorem at concrete clients 0 and 1 and a concrete
notification suffix. -/
theorem C5_last_connect_wins_witness :
    (run (startBridge "EnsoAI" "tok") [.connect 0 "tok", .connect 1 "tok"]).current =
      some 1 ∧
    (0, (none : Option Nat)) ∈
      (run (startBridge "EnsoAI" "tok") [.connect 0 "tok", .connect 1 "tok"]).closedLog ∧
    (0, OutFrame.notice "selection_changed" (.obj [])) ∉
      (run (run (startBridge "EnsoAI" "tok") [.connect 0 "tok", .connect 1 "tok"])
        [.uiNotify "selection_changed" (.obj [])]).delivered := by
  have h := C5_last_connect_wins "EnsoAI" "tok" 0 1 (by decide)
  exact ⟨h.1, h.2.1,
    h.2.2.2 [.uiNotify "selection_changed" (.obj [])] "selection_changed" (.obj [])⟩

/-! ## C1 — chunk-boundary invariance of the line framer -/

theorem splitOnLF_ne_nil (s : List Char) : splitOnLF s ≠ [] := by
  cases s with
  | nil => simp [splitOnLF]
  | cons c rest =>
    simp only [splitOnLF]
    split
    · simp
    · split <;> simp

theorem getLastD_default_irrel (x : α) (xs : List α) (d d' : α) :
    (x :: xs).getLastD d = (x :: xs).getLastD d' := by
  rw [List.getLastD_cons, List.getLastD_cons]

theorem getLastD_append_cons (A : List α) (x : α) (xs : List α) :
    ∀ d, (A ++ x :: xs).getLastD d = (x :: xs).getLastD d := by
  induction A with
  | nil => intro d; rfl
  | cons a as ih =>
    intro d
    rw [List.cons_append, List.getLastD_cons, ih a]
    exact getLastD_default_irrel x xs a d

/-- The last segment of a split never contains a line feed. -/
theorem splitOnLF_last_no_lf (s : List Char) :
    '\n' ∉ (splitOnLF s).getLastD [] := by
  induction s with
  | nil => simp [splitOnLF]
  | cons c rest ih =>
    obtain ⟨r0, rs, hr⟩ := List.exists_cons_of_ne_nil (splitOnLF_ne_nil rest)
    by_cases hc : c = '\n'
    · subst hc
      simp only [splitOnLF, if_true]
      rw [hr] at ih ⊢
      rw [List.getLastD_cons]
      rw [getLastD_default_irrel r0 rs [] ([] : List Char)] at ih
      exact ih
    · simp only [splitOnLF, if_neg hc]
      rw [hr] at ih ⊢
      cases rs with
      | nil =>
        simp only [List.getLastD_cons, List.getLastD] at ih ⊢
        intro hm
        rcases List.mem_cons.mp hm with h1 | h2
        · exact hc h1.symm
        · exact ih h2
      | cons r1 rs' =>
        rw [List.getLastD_cons, List.getLastD_cons] at ih ⊢
        exact ih

/-- A line-feed-free string splits into itself alone. -/
theorem splitOnLF_eq_single (s : List Char) (h : '\n' ∉ s) :
    splitOnLF s = [s] := by
  induction s with
  | nil => rfl
  | cons c rest ih =>
    have hc : ¬(c = '\n') := fun hcc => h (hcc ▸ List.mem_cons_self _ _)
    simp only [splitOnLF, if_neg hc]
    rw [ih (fun hm => h (List.mem_cons_of_mem _ hm))]

/-- Splitting an appended string: the completed segments of `s` survive
unchanged, its trailing segment is glued onto the first segment of `t`. -/
theorem splitOnLF_append (s t : List Char) :
    splitOnLF (s ++ t) =
      (splitOnLF s).dropLast ++
        (((splitOnLF s).getLastD [] ++ (splitOnLF t).headD []) ::
          (splitOnLF t).tail) := by
  induction s with
  | nil =>
    obtain ⟨t0, ts, ht⟩ := List.exists_cons_of_ne_nil (splitOnLF_ne_nil t)
    simp [splitOnLF, ht]
  | cons c rest ih =>
    obtain ⟨r0, rs, hr⟩ := List.exists_cons_of_ne_nil (splitOnLF_ne_nil rest)
    by_cases hc : c = '\n'
    · subst hc
      show splitOnLF ('\n' :: (rest ++ t)) = _
      simp only [splitOnLF, if_true]
      rw [ih, hr]
      simp [List.dropLast_cons₂, List.getLastD_cons]
    · show splitOnLF (c :: (rest ++ t)) = _
      simp only [splitOnLF, if_neg hc]
      rw [ih, hr]
      cases rs with
      | nil =>
        simp only [List.dropLast_single, List.nil_append, List.getLastD_cons,
          List.getLastD_nil]
        rw [List.cons_append]
      | cons r1 rs' =>
        simp only [List.dropLast_cons₂, List.cons_append, List.getLastD_cons]

/-- Feeding two chunks through the framer equals feeding their
concatenation: the completed lines concatenate and the buffers agree. -/
theorem parse_append (p : StreamJsonParser) (c1 c2 : List Char) :
    p.parse (c1 ++ c2) =
      (((p.parse c1).1.parse c2).1,
       (p.parse c1).2 ++ ((p.parse c1).1.parse c2).2) := by
  obtain ⟨B⟩ := p
  simp only [StreamJsonParser.parse]
  have hbuf1 : splitOnLF ((splitOnLF (B ++ c1)).getLastD []) =
      [(splitOnLF (B ++ c1)).getLastD []] :=
    splitOnLF_eq_single _ (splitOnLF_last_no_lf _)
  have hT' : splitOnLF ((splitOnLF (B ++ c1)).getLastD [] ++ c2) =
      ((splitOnLF (B ++ c1)).getLastD [] ++ (splitOnLF c2).headD []) ::
        (splitOnLF c2).tail := by
    rw [splitOnLF_append, hbuf1]
    rfl
  have hMain : splitOnLF (B ++ (c1 ++ c2)) =
      (splitOnLF (B ++ c1)).dropLast ++
        (((splitOnLF (B ++ c1)).getLastD [] ++ (splitOnLF c2).headD []) ::
          (splitOnLF c2).tail) := by
    rw [← List.append_assoc, splitOnLF_append]
  rw [hMain, hT']
  refine Prod.ext ?_ ?_
  · show StreamJsonParser.mk _ = StreamJsonParser.mk _
    congr 1
    exact getLastD_append_cons _ _ _ []
  · show (List.filterMap processLine (List.map dropTrailingCR _)) = _
    rw [List.dropLast_append_cons, List.map_append, List.filterMap_append]

/-- C1: for every input and every split of it into two chunks at any
offset, feeding the chunks sequentially through a fresh decoder yields
the same ordered sequence of decoded JSON records as feeding the whole
input in one `parse` call (and the same final buffer). -/
theorem C1_chunk_invariance (s : List Char) (i : Nat) :
    (StreamJsonParser.parse ⟨[]⟩ (s.take i)).2 ++
        ((StreamJsonParser.parse ⟨[]⟩ (s.take i)).1.parse (s.drop i)).2 =
      (StreamJsonParser.parse ⟨[]⟩ s).2 ∧
    ((StreamJsonParser.parse ⟨[]⟩ (s.take i)).1.parse (s.drop i)).1 =
      (StreamJsonParser.parse ⟨[]⟩ s).1 := by
  have h := parse_append ⟨[]⟩ (s.take i) (s.drop i)
  rw [List.take_append_drop] at h
  exact ⟨(congrArg Prod.snd h).symm, (congrArg Prod.fst h).symm⟩
